import Mathlib

/-!
Verification of the SMART label-history revision subsystem.

The source of truth for the UI-level behaviour is
`src/frontend/src/components/HistoryTable/index.jsx`; its render logic
(table data selection, page-size option construction, initial page size,
filter method, default sort, and the per-row buttons) is embedded below.
JavaScript strings are modelled as lists of character codes (`List Nat`),
array lengths and ids as `Nat`.

The backend revision subsystem (Revision Store, Current-Label Projection,
Revision Command Handler) has no implementation under the repository's
source tree; following the specification, those parts are modelled
directly from the spec's contracts (each such definition is marked
`Modelled from the spec:`).
-/

namespace SMART

/-- A row of the history table as consumed by `HistoryTable.render`:
`id`, `data` (the raw text, as character codes), `old_label`,
`old_label_id`, and `timestamp` (modelled as a `Nat` tick). -/
structure Row where
  id : Nat
  data : List Nat
  old_label : List Nat
  old_label_id : Nat
  timestamp : Nat
deriving DecidableEq

/-- A label from the global reference list: `pk` and `name`. -/
structure Label where
  pk : Nat
  name : List Nat
deriving DecidableEq

/-! ## Page-size options (`HistoryTable.render`, lines 61-68)

```js
var page_sizes = [1];
var counter = 1;
for(var i = 5; i < table_data.length; i+=5*counter)
{
  page_sizes.push(i);
  counter +=1;
}
page_sizes.push(table_data.length);
```
The loop body increments `counter` before the `for` update runs, so the
pushed values are 5, 15, 30, 50, ... . `pageSizesAux fuel n i c` is the
list of values pushed by the loop from loop variable `i` and counter `c`;
the fuel argument only bounds the recursion and `n` iterations are always
enough (the loop variable grows by at least 10 per iteration). -/
def pageSizesAux : Nat → Nat → Nat → Nat → List Nat
  | 0, _, _, _ => []
  | fuel + 1, n, i, c => if i < n then i :: pageSizesAux fuel n (i + 5 * (c + 1)) (c + 1) else []

/-- The values pushed by the growth loop for a result set of `n` rows. -/
def midSizes (n : Nat) : List Nat := pageSizesAux n n 5 1

/-- `page_sizes` as built by `HistoryTable.render` for `n` table rows:
`[1]`, then the loop's pushes, then `table_data.length`. -/
def page_sizes (n : Nat) : List Nat := 1 :: midSizes n ++ [n]

/-- `pageSize={(table_data.length < 50) ? table_data.length : 50}` (line 80). -/
def pageSizeOf (n : Nat) : Nat := if n < 50 then n else 50

/-! ## Filtering (`columns[1].filterMethod`, lines 12-24) -/

/-- ASCII lowercasing of one character code, as `String.toLowerCase`
acts on the ASCII range. -/
def toLowerCode (c : Nat) : Nat := if 65 ≤ c ∧ c ≤ 90 then c + 32 else c

/-- Lowercase a whole string (`.toLowerCase()`). -/
def toLowerStr (s : List Nat) : List Nat := s.map toLowerCode

/-- Does `hay` start with `needle`? (helper for `String.includes`). -/
def startsWith : List Nat → List Nat → Bool
  | _, [] => true
  | [], _ :: _ => false
  | a :: as, b :: bs => (a == b) && startsWith as bs

/-- JavaScript `hay.includes(needle)`: `needle` occurs contiguously in `hay`. -/
def includesStr : List Nat → List Nat → Bool
  | [], needle => startsWith [] needle
  | a :: t, needle => startsWith (a :: t) needle || includesStr t needle

/-- `filterMethod`: `String(row["data"]).toLowerCase().includes(filter.value.toLowerCase())`,
returning `true`/`false` through the `if`/`else`. -/
def filterMethod (fv : List Nat) (row : Row) : Bool :=
  if includesStr (toLowerStr row.data) (toLowerStr fv) then true else false

/-- The rows the table displays under an optional filter: with no filter
every row is shown; with a filter only the rows accepted by
`filterMethod`. -/
def applyFilter : Option (List Nat) → List Row → List Row
  | none, rows => rows
  | some fv, rows => rows.filter (filterMethod fv)

/-! ## Table data and render props (`HistoryTable.render`, lines 54-80) -/

/-- `table_data`: `history_data[0]` when `history_data` is nonempty, else `[]`. -/
def tableData : List (List Row) → List Row
  | [] => []
  | t :: _ => t

/-- The props handed to `ReactTable` that the claims are about. -/
structure ViewProps where
  data : List Row
  pageSizeOptions : List Nat
  pageSize : Nat
deriving DecidableEq

/-- `HistoryTable.render`: builds `table_data`, the `page_sizes` list from
`table_data.length`, and the initial page size. -/
def render (history_data : List (List Row)) : ViewProps :=
  { data := tableData history_data
    pageSizeOptions := page_sizes (tableData history_data).length
    pageSize := pageSizeOf (tableData history_data).length }

/-- The rows actually displayed once the table applies a filter to the
`data` prop. -/
def displayedRows (p : ViewProps) (f : Option (List Nat)) : List Row :=
  applyFilter f p.data

/-! ## Helper lemmas about the growth loop -/

theorem pageSizesAux_head (fuel n i c : Nat) (hf : 0 < fuel) (hi : i < n) :
    (pageSizesAux fuel n i c).head? = some i := by
  cases fuel with
  | zero => omega
  | succ f => simp [pageSizesAux, hi]

theorem pageSizesAux_getq_zero (fuel n i c : Nat) (b : Nat)
    (h : (pageSizesAux fuel n i c).get? 0 = some b) : b = i := by
  cases fuel with
  | zero => simp [pageSizesAux] at h
  | succ f =>
    by_cases hi : i < n
    · simp [pageSizesAux, hi] at h
      omega
    · simp [pageSizesAux, hi] at h

theorem pageSizesAux_mem (fuel : Nat) :
    ∀ n i c x, x ∈ pageSizesAux fuel n i c → i ≤ x ∧ x < n := by
  induction fuel with
  | zero => intro n i c x hx; simp [pageSizesAux] at hx
  | succ f ih =>
    intro n i c x hx
    by_cases hi : i < n
    · simp [pageSizesAux, hi] at hx
      rcases hx with rfl | hx
      · exact ⟨Nat.le_refl _, hi⟩
      · rcases ih n (i + 5 * (c + 1)) (c + 1) x hx with ⟨h1, h2⟩
        exact ⟨by omega, h2⟩
    · simp [pageSizesAux, hi] at hx

theorem pageSizesAux_getq_succ (fuel : Nat) :
    ∀ n i c k a b, (pageSizesAux fuel n i c).get? k = some a →
      (pageSizesAux fuel n i c).get? (k + 1) = some b → b = a + 5 * (c + k + 1) := by
  induction fuel with
  | zero => intro n i c k a b ha _; simp [pageSizesAux] at ha
  | succ f ih =>
    intro n i c k a b ha hb
    by_cases hi : i < n
    · have hL : pageSizesAux (f + 1) n i c
          = i :: pageSizesAux f n (i + 5 * (c + 1)) (c + 1) := by
        simp [pageSizesAux, hi]
      rw [hL] at ha hb
      cases k with
      | zero =>
        simp only [List.get?_cons_zero, Option.some.injEq] at ha
        rw [List.get?_cons_succ] at hb
        have hb' := pageSizesAux_getq_zero f n (i + 5 * (c + 1)) (c + 1) b hb
        omega
      | succ k =>
        rw [List.get?_cons_succ] at ha hb
        have := ih n (i + 5 * (c + 1)) (c + 1) k a b ha hb
        omega
    · have hL : pageSizesAux (f + 1) n i c = [] := by
        simp [pageSizesAux, hi]
      rw [hL] at ha
      simp at ha

theorem midSizes_of_le_five (n : Nat) (h : n ≤ 5) : midSizes n = [] := by
  unfold midSizes
  cases n with
  | zero => rfl
  | succ m =>
    have : ¬ 5 < m + 1 := by omega
    simp [pageSizesAux, this]

theorem page_sizes_getLast (n : Nat) : (page_sizes n).getLast? = some n := by
  unfold page_sizes
  rw [show (1 :: midSizes n ++ [n]) = (1 :: midSizes n) ++ [n] from rfl]
  exact List.getLast?_concat _

/-! ## Claims about pagination and rendering -/

/-- C1 (amended): the page-size options are `1`, then the growth loop's
values starting at `5` and growing by `size = previous + 5 × counter`
with the counter advancing each step (so increments 10, 15, 20, …),
all strictly below the result count, then the full result count; a result
set of 12 rows yields `[1, 5, 12]` (not `[5, 10, 12]`). -/
theorem c1_page_size_growth (n : Nat) :
    page_sizes n = 1 :: midSizes n ++ [n]
    ∧ (5 < n → (midSizes n).get? 0 = some 5)
    ∧ (n ≤ 5 → midSizes n = [])
    ∧ (∀ x ∈ midSizes n, 5 ≤ x ∧ x < n)
    ∧ (∀ k a b, (midSizes n).get? k = some a → (midSizes n).get? (k + 1) = some b →
        b = a + 5 * (k + 2))
    ∧ page_sizes 12 = [1, 5, 12] := by
  refine ⟨rfl, ?_, midSizes_of_le_five n, ?_, ?_, by decide⟩
  · intro h5
    unfold midSizes
    cases n with
    | zero => omega
    | succ m => simp [pageSizesAux, h5]
  · intro x hx
    have := pageSizesAux_mem n n 5 1 x hx
    omega
  · intro k a b ha hb
    have := pageSizesAux_getq_succ n n 5 1 k a b ha hb
    omega

/-- C1 witness: concrete instances of the amended growth law, at result
counts 23 and 3 (`midSizes 23 = [5, 15]`). -/
theorem c1_page_size_growth_witness :
    (midSizes 23).get? 0 = some 5
    ∧ midSizes 3 = []
    ∧ (5 ≤ 15 ∧ 15 < 23)
    ∧ (15 : Nat) = 5 + 5 * (0 + 2) :=
  ⟨(c1_page_size_growth 23).2.1 (by decide),
   (c1_page_size_growth 3).2.2.1 (by decide),
   (c1_page_size_growth 23).2.2.2.1 15 (by decide),
   (c1_page_size_growth 23).2.2.2.2.1 0 5 15 (by decide) (by decide)⟩

/-- C1 counterexample: 12 rows yield page-size options `[1, 5, 12]`,
not `[5, 10, 12]` as claimed. -/
theorem c1_counterexample : page_sizes 12 ≠ [5, 10, 12] ∧ page_sizes 12 = [1, 5, 12] := by
  decide

/-- C8 (amended): the options list begins with `1` and ends with the exact
total; total `0` gives `[1, 0]` and total `1` gives `[1, 1]`; for every
total of at least `2` (in particular `2` through `5`) the final entry
strictly exceeds every earlier entry, so the final entry duplicates or
falls below an earlier entry only when the total is at most `1`. -/
theorem c8_options_endpoints (n : Nat) :
    (page_sizes n).head? = some 1
    ∧ (page_sizes n).getLast? = some n
    ∧ page_sizes 0 = [1, 0]
    ∧ page_sizes 1 = [1, 1]
    ∧ (2 ≤ n → ∀ x ∈ (page_sizes n).dropLast, x < n)
    ∧ ((∃ x ∈ (page_sizes n).dropLast, n = x ∨ n < x) → n ≤ 1) := by
  have hdl : (page_sizes n).dropLast = 1 :: midSizes n := by
    show ((1 :: midSizes n) ++ [n]).dropLast = 1 :: midSizes n
    exact List.dropLast_concat
  have hlt : 2 ≤ n → ∀ x ∈ (page_sizes n).dropLast, x < n := by
    intro hn x hx
    rw [hdl] at hx
    rcases List.mem_cons.mp hx with rfl | hx
    · omega
    · exact (pageSizesAux_mem n n 5 1 x hx).2
  refine ⟨rfl, page_sizes_getLast n, by decide, by decide, hlt, ?_⟩
  rintro ⟨x, hx, hdup⟩
  by_contra hn
  have h2 : 2 ≤ n := by omega
  have hxlt := hlt h2 x hx
  rcases hdup with rfl | hlt2
  · omega
  · omega

/-- C8 witness: at total `4` the final entry `4` strictly exceeds both
earlier entries of `[1, 4]`. -/
theorem c8_options_endpoints_witness :
    (∀ x ∈ (page_sizes 4).dropLast, x < 4) ∧ page_sizes 4 = [1, 4] :=
  ⟨(c8_options_endpoints 4).2.2.2.2.1 (by decide), by decide⟩

/-- C8 counterexample: at total `2` (which is at most `5`) the options are
`[1, 2]` and the final entry `2` neither duplicates nor falls below the
earlier entry. -/
theorem c8_counterexample :
    (2 : Nat) ≤ 5 ∧ page_sizes 2 = [1, 2]
    ∧ (page_sizes 2).getLast? = some 2
    ∧ (∀ x ∈ (page_sizes 2).dropLast, ¬ (2 = x ∨ 2 < x)) := by
  decide

/-- C9: the initial page size is the total row count when below 50 and is
capped at 50 otherwise, i.e. `pageSize = min(total, 50)`. -/
theorem c9_initial_page_size (h : List (List Row)) :
    (render h).pageSize = min (tableData h).length 50 := by
  show pageSizeOf (tableData h).length = min (tableData h).length 50
  unfold pageSizeOf
  split <;> omega

/-- C3 (amended): the page-size options are a function of the *unfiltered*
table data's length — `render` computes them from `table_data.length`
before any filter is applied, and the filter only affects which rows are
displayed, never the options. -/
theorem c3_options_from_unfiltered (h : List (List Row)) (f : Option (List Nat)) :
    (render h).pageSizeOptions = page_sizes (render h).data.length
    ∧ (render h).pageSizeOptions.getLast? = some (render h).data.length
    ∧ displayedRows (render h) f = applyFilter f (tableData h) :=
  ⟨rfl, page_sizes_getLast _, rfl⟩

/-- C3 counterexample: two data sets whose filtered result both has 3 rows
(filter `"a"`, code 97) get different page-size option lists (`[1, 5, 12]`
versus `[1, 3]`), so the options are not a function of the filtered
result-set size. -/
theorem c3_counterexample :
    (displayedRows (render [List.replicate 3 (Row.mk 0 [97] [] 0 0)
        ++ List.replicate 9 (Row.mk 0 [98] [] 0 0)]) (some [97])).length = 3
    ∧ (displayedRows (render [List.replicate 3 (Row.mk 0 [97] [] 0 0)]) (some [97])).length = 3
    ∧ (render [List.replicate 3 (Row.mk 0 [97] [] 0 0)
        ++ List.replicate 9 (Row.mk 0 [98] [] 0 0)]).pageSizeOptions = [1, 5, 12]
    ∧ (render [List.replicate 3 (Row.mk 0 [97] [] 0 0)]).pageSizeOptions = [1, 3] := by
  decide

/-! ## Substring semantics of the filter -/

theorem startsWith_iff : ∀ (n hy : List Nat), startsWith hy n = true ↔ ∃ r, hy = n ++ r := by
  intro n
  induction n with
  | nil => intro hy; simp [startsWith]
  | cons b bs ih =>
    intro hy
    cases hy with
    | nil => simp [startsWith]
    | cons a as =>
      rw [show startsWith (a :: as) (b :: bs) = ((a == b) && startsWith as bs) from rfl]
      simp only [Bool.and_eq_true, beq_iff_eq, ih as]
      constructor
      · rintro ⟨rfl, r, rfl⟩
        exact ⟨r, rfl⟩
      · rintro ⟨r, hr⟩
        rw [List.cons_append] at hr
        injection hr with h1 h2
        exact ⟨h1, r, h2⟩

theorem includesStr_iff (hy n : List Nat) :
    includesStr hy n = true ↔ ∃ l r, hy = l ++ n ++ r := by
  induction hy with
  | nil =>
    rw [show includesStr [] n = startsWith [] n from rfl, startsWith_iff]
    constructor
    · rintro ⟨r, hr⟩
      exact ⟨[], r, hr⟩
    · rintro ⟨l, r, hr⟩
      have h1 : l ++ n ++ r = [] := hr.symm
      have h2 := List.append_eq_nil.mp h1
      have h3 := List.append_eq_nil.mp h2.1
      exact ⟨r, by simp [h3.2, h2.2]⟩
  | cons a t ih =>
    rw [show includesStr (a :: t) n = (startsWith (a :: t) n || includesStr t n) from rfl]
    rw [Bool.or_eq_true, startsWith_iff, ih]
    constructor
    · rintro (⟨r, hr⟩ | ⟨l, r, hr⟩)
      · exact ⟨[], r, hr⟩
      · exact ⟨a :: l, r, by simp [hr]⟩
    · rintro ⟨l, r, hr⟩
      cases l with
      | nil => exact Or.inl ⟨r, by simpa using hr⟩
      | cons x xs =>
        rw [List.cons_append, List.cons_append] at hr
        injection hr with h1 h2
        exact Or.inr ⟨xs, r, h2⟩

/-- C5: a row matches the filter iff the lowercased row data contains the
lowercased filter string as a contiguous substring, and the absence of a
filter returns all rows. -/
theorem c5_filter_semantics :
    (∀ fv row, filterMethod fv row = true ↔
        ∃ l r, toLowerStr row.data = l ++ toLowerStr fv ++ r)
    ∧ (∀ rows, applyFilter none rows = rows) := by
  constructor
  · intro fv row
    constructor
    · intro hf
      have hb : includesStr (toLowerStr row.data) (toLowerStr fv) = true := by
        by_contra hb
        simp [filterMethod, hb] at hf
      exact (includesStr_iff _ _).mp hb
    · intro hex
      have hb := (includesStr_iff (toLowerStr row.data) (toLowerStr fv)).mpr hex
      simp [filterMethod, hb]
  · intro rows
    rfl

/-- C5 witness: filter `"A"` (code 65) matches a row whose data is `"ab"`
(codes 97, 98), since lowercasing makes `"a"` a substring of `"ab"`. -/
theorem c5_filter_semantics_witness : filterMethod [65] (Row.mk 1 [97, 98] [] 0 0) = true :=
  (c5_filter_semantics.1 [65] (Row.mk 1 [97, 98] [] 0 0)).mpr ⟨[], [98], by decide⟩

/-! ## Default sort (`ReactTable defaultSorted`, lines 106-109)

Only the timestamp comparator — the one the default sort uses — is
modelled; sorting by other columns is performed by the external table
widget and is outside the embedded core. -/

/-- Descending-timestamp order: `a` comes no later than `b` when `a`'s
timestamp is at least `b`'s. -/
def tsGE (a b : Row) : Prop := b.timestamp ≤ a.timestamp

/-- Ascending-timestamp order. -/
def tsLE (a b : Row) : Prop := a.timestamp ≤ b.timestamp

instance : DecidableRel tsGE := fun a b => Nat.decLe b.timestamp a.timestamp

instance : DecidableRel tsLE := fun a b => Nat.decLe a.timestamp b.timestamp

instance : IsTotal Row tsGE := ⟨fun a b => Nat.le_total b.timestamp a.timestamp⟩

instance : IsTotal Row tsLE := ⟨fun a b => Nat.le_total a.timestamp b.timestamp⟩

instance : IsTrans Row tsGE := ⟨fun _ _ _ hab hbc => Nat.le_trans hbc hab⟩

instance : IsTrans Row tsLE := ⟨fun _ _ _ hab hbc => Nat.le_trans hab hbc⟩

/-- A sort specification as handed to the table: column id and direction. -/
structure SortSpec where
  id : String
  desc : Bool

/-- `defaultSorted={[{id: "timestamp", desc: true}]}`. -/
def defaultSorted : List SortSpec := [SortSpec.mk "timestamp" true]

/-- Apply the first sort specification to the rows (timestamp column). -/
def applySort (specs : List SortSpec) (rows : List Row) : List Row :=
  match specs with
  | [] => rows
  | s :: _ =>
    if s.id = "timestamp" then
      if s.desc then List.insertionSort tsGE rows else List.insertionSort tsLE rows
    else rows

/-- The history query as seen through the table: filter the rows, then
sort them by the requested sort, falling back to `defaultSorted` when no
sort is specified. -/
def queryRows (sort : Option (List SortSpec)) (f : Option (List Nat)) (rows : List Row) :
    List Row :=
  applySort (sort.getD defaultSorted) (applyFilter f rows)

theorem applySort_default (rows : List Row) :
    applySort defaultSorted rows = List.insertionSort tsGE rows := by
  simp [applySort, defaultSorted]

/-- C6: with no sort specified, the query's results are sorted by the
timestamp column in descending order (each row's timestamp is at least
the next row's), and are a permutation of the filtered rows. -/
theorem c6_default_sort_desc (f : Option (List Nat)) (rows : List Row) :
    List.Sorted tsGE (queryRows none f rows)
    ∧ (queryRows none f rows).Perm (applyFilter f rows) := by
  have hq : queryRows none f rows = List.insertionSort tsGE (applyFilter f rows) :=
    applySort_default _
  rw [hq]
  exact ⟨List.sorted_insertionSort tsGE _, List.perm_insertionSort tsGE _⟩

/-! ## Revision subsystem

The Revision Store, Current-Label Projection and Revision Command Handler
have no implementation under the repository's source tree (the backend
directory carries only build configuration), so they are modelled from the
specification's contracts (§4.1, §4.2, §4.4). -/

/-- A projected label state: a concrete label, the reserved "skipped"
sentinel, or "unset" for an item never labelled. -/
inductive LabelVal where
  | unset
  | skipped
  | label (id : Nat)
deriving DecidableEq

/-- Modelled from the spec: a `LabelEvent` of the Revision Store (§3) —
`event_id`, `item_id`, `previous_label_id`, `new_label_id`, `timestamp`
(`raw_data` plays no role in the revision claims and is omitted). -/
structure LabelEvent where
  event_id : Nat
  item_id : Nat
  previous_label : LabelVal
  new_label : LabelVal
  timestamp : Nat
deriving DecidableEq

/-- Modelled from the spec: the system state — the append-only store, the
Current-Label Projection (as an association list whose most recent entry
wins), and a monotone counter serving as both event id and timestamp. -/
structure SysState where
  store : List LabelEvent
  proj : List (Nat × LabelVal)
  nextId : Nat
deriving DecidableEq

def initState : SysState := SysState.mk [] [] 0

/-- Read the projection's entry for an item (`unset` when absent). -/
def projGet (p : List (Nat × LabelVal)) (item : Nat) : LabelVal :=
  (p.lookup item).getD LabelVal.unset

/-- Update the projection's entry for an item. -/
def projSet (p : List (Nat × LabelVal)) (item : Nat) (v : LabelVal) :
    List (Nat × LabelVal) :=
  (item, v) :: p

/-- The error the claims are about; `ConflictError` and `NotFoundError`
of §7 concern the store level and reference data and are outside the
modelled handler (§4.4 raises only `StaleStateError`). -/
inductive RevError where
  | staleState
deriving DecidableEq

/-- Modelled from the spec: `relabel(item_id, expected_previous_label_id,
new_label_id)` (§4.4) — fails with `StaleStateError` if the expected
previous label does not match the projection, no-ops if the new label
equals the expected previous one, otherwise appends a `LabelEvent` and
advances the projection. -/
def relabel (s : SysState) (item : Nat) (expected : LabelVal) (new_id : Nat) :
    Except RevError SysState :=
  if projGet s.proj item ≠ expected then Except.error RevError.staleState
  else if LabelVal.label new_id = expected then Except.ok s
  else
    Except.ok
      (SysState.mk
        (s.store ++ [LabelEvent.mk s.nextId item expected (LabelVal.label new_id) s.nextId])
        (projSet s.proj item (LabelVal.label new_id))
        (s.nextId + 1))

/-- Modelled from the spec: `skip(item_id, expected_previous_label_id)`
(§4.4) — same staleness check; appends an event carrying the skipped
sentinel and advances the projection. -/
def runSkip (s : SysState) (item : Nat) (expected : LabelVal) :
    Except RevError SysState :=
  if projGet s.proj item ≠ expected then Except.error RevError.staleState
  else
    Except.ok
      (SysState.mk
        (s.store ++ [LabelEvent.mk s.nextId item expected LabelVal.skipped s.nextId])
        (projSet s.proj item LabelVal.skipped)
        (s.nextId + 1))

/-- Modelled from the spec: `rebuild()` (§4.2) folds the Revision Store
from empty state, taking the last event per item. -/
def rebuild (store : List LabelEvent) : List (Nat × LabelVal) :=
  store.foldl (fun p e => projSet p e.item_id e.new_label) []

/-- Replay semantics: the `new_label` of an item's last event in store
order (`unset` when the item has no events). -/
def lastLabel (store : List LabelEvent) (item : Nat) : LabelVal :=
  ((store.filter (fun e => e.item_id == item)).map (fun e => e.new_label)).getLast?
    |>.getD LabelVal.unset

/-! ## UI buttons (`SubComponent`, lines 86-100) -/

/-- A command the presentation layer can send. -/
inductive UICmd where
  | changeLabel (id old_label_id new_label_id : Nat)
  | changeToSkip (id old_label_id : Nat)
deriving DecidableEq

/-- A label button's `onClick`: `if(!(row.row.old_label_id === label.pk))
changeLabel(row.row.id, row.row.old_label_id, label.pk)` — suppressed when
the clicked label is already the row's label. -/
def labelClick (row : Row) (lab : Label) : Option UICmd :=
  if ¬ (row.old_label_id = lab.pk) then
    some (UICmd.changeLabel row.id row.old_label_id lab.pk)
  else none

/-- The Skip button's `onClick`:
`changeToSkip(row.row.id, row.row.old_label_id)`, with no guard. -/
def skipClick (row : Row) : Option UICmd :=
  some (UICmd.changeToSkip row.id row.old_label_id)

/-! ## Execution of command sequences -/

/-- A handler command with its arguments. -/
inductive Cmd where
  | rel (item : Nat) (expected : LabelVal) (new_id : Nat)
  | skp (item : Nat) (expected : LabelVal)

/-- Execute one command; a failed command leaves the state unchanged
(the error is surfaced to the caller, never retried by the core). -/
def step (s : SysState) (c : Cmd) : SysState :=
  match c with
  | Cmd.rel item expected new_id =>
    match relabel s item expected new_id with
    | Except.ok s2 => s2
    | Except.error _ => s
  | Cmd.skp item expected =>
    match runSkip s item expected with
    | Except.ok s2 => s2
    | Except.error _ => s

/-- The state after a sequence of commands from the empty initial state. -/
def run (cs : List Cmd) : SysState := cs.foldl step initState

/-- The live projection agrees with replay over the store. -/
def ProjOK (s : SysState) : Prop :=
  ∀ item, projGet s.proj item = lastLabel s.store item

/-- Timestamps are bounded by the clock and strictly increase along the
store. -/
def TsOK (s : SysState) : Prop :=
  (∀ e ∈ s.store, e.timestamp < s.nextId)
  ∧ List.Chain' (fun a b => a.timestamp < b.timestamp) s.store

/-! ## Projection/replay lemmas -/

theorem projGet_projSet (p : List (Nat × LabelVal)) (item : Nat) (v : LabelVal) (j : Nat) :
    projGet (projSet p item v) j = if j = item then v else projGet p j := by
  by_cases h : j = item
  · simp [projGet, projSet, List.lookup, h]
  · have hb : (j == item) = false := by simpa using h
    simp [projGet, projSet, List.lookup, h, hb]

theorem lastLabel_append (store : List LabelEvent) (e : LabelEvent) (item : Nat) :
    lastLabel (store ++ [e]) item
      = if e.item_id = item then e.new_label else lastLabel store item := by
  by_cases h : e.item_id = item
  · simp [lastLabel, List.filter_append, h, List.getLast?_concat]
  · simp [lastLabel, List.filter_append, h]

theorem rebuild_append (store : List LabelEvent) (e : LabelEvent) :
    rebuild (store ++ [e]) = projSet (rebuild store) e.item_id e.new_label := by
  simp [rebuild, List.foldl_append]

theorem projGet_rebuild (store : List LabelEvent) (item : Nat) :
    projGet (rebuild store) item = lastLabel store item := by
  induction store using List.reverseRecOn with
  | nil => rfl
  | append_singleton l e ih =>
    rw [rebuild_append, projGet_projSet, lastLabel_append]
    by_cases h : e.item_id = item
    · simp [h]
    · have h2 : ¬ (item = e.item_id) := fun hh => h hh.symm
      simp [h, h2, ih]

theorem inv_step (s : SysState) (hP : ProjOK s) (hT : TsOK s) (c : Cmd) :
    ProjOK (step s c) ∧ TsOK (step s c) := by
  have main : ∀ item expected new_label,
      ProjOK (SysState.mk
          (s.store ++ [LabelEvent.mk s.nextId item expected new_label s.nextId])
          (projSet s.proj item new_label) (s.nextId + 1))
      ∧ TsOK (SysState.mk
          (s.store ++ [LabelEvent.mk s.nextId item expected new_label s.nextId])
          (projSet s.proj item new_label) (s.nextId + 1)) := by
    intro item expected new_label
    constructor
    · intro j
      show projGet (projSet s.proj item new_label) j = _
      rw [projGet_projSet]
      show _ = lastLabel (s.store ++ [LabelEvent.mk s.nextId item expected new_label s.nextId]) j
      rw [lastLabel_append]
      by_cases hj : j = item
      · simp [hj]
      · have hj2 : ¬ (item = j) := fun hh => hj hh.symm
        simp [hj, hj2, hP j]
    · constructor
      · intro e he
        show e.timestamp < s.nextId + 1
        simp at he
        rcases he with he | rfl
        · exact Nat.lt_succ_of_lt (hT.1 e he)
        · show s.nextId < s.nextId + 1
          omega
      · show List.Chain' _ (s.store ++ [LabelEvent.mk s.nextId item expected new_label s.nextId])
        rw [List.chain'_append]
        refine ⟨hT.2, List.chain'_singleton _, ?_⟩
        intro x hx y hy
        simp at hy
        subst hy
        show x.timestamp < s.nextId
        exact hT.1 x (List.mem_of_mem_getLast? hx)
  cases c with
  | rel item expected new_id =>
    by_cases h1 : projGet s.proj item ≠ expected
    · have hs : step s (Cmd.rel item expected new_id) = s := by
        simp [step, relabel, h1]
      rw [hs]
      exact ⟨hP, hT⟩
    · by_cases h2 : LabelVal.label new_id = expected
      · have hs : step s (Cmd.rel item expected new_id) = s := by
          simp [step, relabel, h1, h2]
        rw [hs]
        exact ⟨hP, hT⟩
      · have hs : step s (Cmd.rel item expected new_id)
            = SysState.mk
                (s.store ++ [LabelEvent.mk s.nextId item expected (LabelVal.label new_id) s.nextId])
                (projSet s.proj item (LabelVal.label new_id)) (s.nextId + 1) := by
          simp [step, relabel, h1, h2]
        rw [hs]
        exact main item expected (LabelVal.label new_id)
  | skp item expected =>
    by_cases h1 : projGet s.proj item ≠ expected
    · have hs : step s (Cmd.skp item expected) = s := by
        simp [step, runSkip, h1]
      rw [hs]
      exact ⟨hP, hT⟩
    · have hs : step s (Cmd.skp item expected)
          = SysState.mk
              (s.store ++ [LabelEvent.mk s.nextId item expected LabelVal.skipped s.nextId])
              (projSet s.proj item LabelVal.skipped) (s.nextId + 1) := by
        simp [step, runSkip, h1]
      rw [hs]
      exact main item expected LabelVal.skipped

theorem run_inv (cs : List Cmd) : ProjOK (run cs) ∧ TsOK (run cs) := by
  suffices h : ∀ s, ProjOK s ∧ TsOK s →
      ProjOK (List.foldl step s cs) ∧ TsOK (List.foldl step s cs) by
    refine h initState ⟨fun item => rfl, ?_, ?_⟩ <;> simp [initState]
  induction cs with
  | nil => intro s hs; simpa using hs
  | cons c cs ih =>
    intro s hs
    simp only [List.foldl_cons]
    exact ih (step s c) (inv_step s hs.1 hs.2 c)

/-! ## Claims about the revision subsystem -/

/-- C4: for every command sequence run from the empty state, the live
projection equals replay (last `new_label` per item over the store, whose
events are in strictly increasing timestamp order), and `rebuild` — the
fold of the store from empty state taking the last event per item —
reproduces the live projection. -/
theorem c4_projection_replay (cs : List Cmd) :
    (∀ item, projGet (run cs).proj item = lastLabel (run cs).store item)
    ∧ (∀ item, projGet (rebuild (run cs).store) item = projGet (run cs).proj item)
    ∧ List.Chain' (fun a b => a.timestamp < b.timestamp) (run cs).store :=
  ⟨(run_inv cs).1,
   fun item => (projGet_rebuild _ item).trans ((run_inv cs).1 item).symm,
   (run_inv cs).2.2⟩

/-- C7: `relabel` fails with `StaleStateError` exactly when the expected
previous label does not match the item's current projected label, and any
successful call — in particular one that appends an event — requires the
expected previous label to match the projection. -/
theorem c7_stale_state (s : SysState) (item : Nat) (expected : LabelVal) (new_id : Nat) :
    (relabel s item expected new_id = Except.error RevError.staleState
        ↔ projGet s.proj item ≠ expected)
    ∧ (∀ s2, relabel s item expected new_id = Except.ok s2 →
        projGet s.proj item = expected
        ∧ (s2.store = s.store ∨ ∃ e, s2.store = s.store ++ [e])) := by
  by_cases h1 : projGet s.proj item ≠ expected
  · constructor
    · simp [relabel, h1]
    · intro s2 hs2
      simp [relabel, h1] at hs2
  · have heq : projGet s.proj item = expected := by
      by_contra hc
      exact h1 hc
    by_cases h2 : LabelVal.label new_id = expected
    · constructor
      · simp [relabel, h1, h2]
      · intro s2 hs2
        simp [relabel, h1, h2] at hs2
        subst hs2
        exact ⟨heq, Or.inl rfl⟩
    · constructor
      · simp [relabel, h1, h2]
      · intro s2 hs2
        simp [relabel, h1, h2] at hs2
        subst hs2
        exact ⟨heq, Or.inr
          ⟨LabelEvent.mk s.nextId item expected (LabelVal.label new_id) s.nextId, rfl⟩⟩

/-- C7 witness: on the empty state, a relabel expecting label 1 (while the
projection holds `unset`) fails with `StaleStateError`. -/
theorem c7_stale_state_witness :
    relabel initState 0 (LabelVal.label 1) 2 = Except.error RevError.staleState :=
  (c7_stale_state initState 0 (LabelVal.label 1) 2).1.mpr (by decide)

/-- C2: when the chosen new label equals the expected previous one, the
label button's click handler issues no command at all, and the modelled
`relabel` command is a strict no-op — a successful call returns the state
unchanged, so no event is appended and the item's history count is
unchanged. -/
theorem c2_relabel_noop :
    (∀ row lab, row.old_label_id = lab.pk → labelClick row lab = none)
    ∧ (∀ s item new_id s2,
        relabel s item (LabelVal.label new_id) new_id = Except.ok s2 → s2 = s) := by
  constructor
  · intro row lab h
    simp [labelClick, h]
  · intro s item new_id s2 hok
    by_cases h1 : projGet s.proj item ≠ LabelVal.label new_id
    · simp [relabel, h1] at hok
    · simp [relabel, h1] at hok
      exact hok.symm

/-- C2 witness: a click on the row's current label issues nothing, and a
matching same-label relabel command returns the state unchanged. -/
theorem c2_relabel_noop_witness :
    labelClick (Row.mk 4 [] [] 7 0) (Label.mk 7 []) = none
    ∧ SysState.mk [] [(0, LabelVal.label 3)] 1 = SysState.mk [] [(0, LabelVal.label 3)] 1 :=
  ⟨c2_relabel_noop.1 (Row.mk 4 [] [] 7 0) (Label.mk 7 []) rfl,
   c2_relabel_noop.2 (SysState.mk [] [(0, LabelVal.label 3)] 1) 0 3
     (SysState.mk [] [(0, LabelVal.label 3)] 1) rfl⟩

/-- C10: the Skip button unconditionally issues `changeToSkip` with the
row's id and its `old_label_id` as expected previous label — for every
row, with no guard — while a label button's click can be suppressed. -/
theorem c10_skip_unconditional :
    (∀ row, skipClick row = some (UICmd.changeToSkip row.id row.old_label_id))
    ∧ (∃ row lab, labelClick row lab = none) :=
  ⟨fun _ => rfl, ⟨Row.mk 0 [] [] 7 0, Label.mk 7 [], by decide⟩⟩

end SMART
